import Mathlib

/-!
Verification of the Aramis NLU engine (src/aramis) against its natural-language
specification.  The development shallowly embeds the relevant parts of
langs.py, trigram.py, lexer.py, weights.py and parser.py.  Numeric values that
are Python floats are modelled as rationals (every float is a rational), with
square roots taken in the reals; fallible code returns Except values, one
constructor per Python exception class that can be raised.
-/

namespace Aramis

/-- Python runtime exceptions raised by the embedded code paths. -/
inductive PyErr
  | valueError
  | attributeError
  | zeroDivisionError
  deriving DecidableEq

/-! ## langs.py: Locale

LOCALE_RE is re.compile of the pattern ([a-zA-Z]\x7b2,3\x7d)[-_]([a-zA-Z]\x7b2,3\x7d)
and Locale.parse calls LOCALE_RE.match, which anchors at the start of the
string but not at its end. -/

/-- Character class [a-zA-Z] of LOCALE_RE. -/
def isAsciiLetter (c : Char) : Bool :=
  ('a' ≤ c && c ≤ 'z') || ('A' ≤ c && c ≤ 'Z')

/-- Character class [-_] of LOCALE_RE. -/
def isLocSep (c : Char) : Bool :=
  c = '-' || c = '_'

/-- Second capture group of LOCALE_RE: two or three ASCII letters, greedy.
Nothing follows it in the pattern, so the regex engine captures three letters
when three are available and otherwise two; any remaining input is ignored
because the pattern has no end anchor.  Returns the captured letters. -/
def localeGroup2 : List Char → Option (List Char)
  | a :: b :: c :: _ =>
    if isAsciiLetter a && isAsciiLetter b then
      if isAsciiLetter c then some [a, b, c] else some [a, b]
    else none
  | [a, b] => if isAsciiLetter a && isAsciiLetter b then some [a, b] else none
  | _ => none

/-- LOCALE_RE.match on a list of characters, returning the two captured groups.
The first group is greedy with a separator required right after it: the engine
first tries three letters followed by a separator, and falls back to two
letters followed by a separator.  When the third character is a letter the
two-letter fallback cannot succeed (the separator position would hold that
letter), which the branch structure below reflects. -/
def localeMatch : List Char → Option (List Char × List Char)
  | a :: b :: c :: d :: rest =>
    if isAsciiLetter a && isAsciiLetter b then
      if isAsciiLetter c then
        if isLocSep d then (localeGroup2 rest).map (fun g2 => ([a, b, c], g2))
        else none
      else
        if isLocSep c then (localeGroup2 (d :: rest)).map (fun g2 => ([a, b], g2))
        else none
    else none
  | _ => none

/-- Neutral locale representation from langs.py. -/
structure Locale where
  lang : String
  region : String
  deriving DecidableEq

/-- Python str.lower on a list of characters.  Python lowercases characterwise
here; on the ASCII letters that LOCALE_RE captures this is exactly
Char.toLower. -/
def pyLower (cs : List Char) : List Char :=
  cs.map Char.toLower

/-- Locale.parse from langs.py: LOCALE_RE.match(locale); when the match fails
raise ValueError, otherwise build Locale from the two groups lowercased. -/
def Locale.parse (s : String) : Except PyErr Locale :=
  match localeMatch s.toList with
  | some g => Except.ok ⟨String.mk (pyLower g.1), String.mk (pyLower g.2)⟩
  | none => Except.error PyErr.valueError

/-- Modelled from the spec words for claim C5: a full anchored match, two or
three letters, one dash or underscore, two or three letters, and nothing
else.  The parameter k is the first group's length. -/
def anchoredLocaleAt (k : Nat) (cs : List Char) : Bool :=
  ((cs.take k).length = k) && (cs.take k).all isAsciiLetter &&
    match cs.drop k with
    | c :: g2 => isLocSep c && g2.all isAsciiLetter && (g2.length = 2 || g2.length = 3)
    | [] => false

/-- Modelled from the spec words for claim C5: the string matches the locale
pattern in full, with a first group of two or of three letters. -/
def anchoredLocale (cs : List Char) : Bool :=
  anchoredLocaleAt 2 cs || anchoredLocaleAt 3 cs

/-! ## trigram.py: make_trigrams

The generator walks the input behind a three-slot queue primed with
None,None,None; every yielded tuple materializes None slots as spaces; after
the input ends, one extra window is emitted when the last slot is filled.  The
queue's first slot never reaches an emitted tuple, so the recursion below
tracks only the last two slots. -/

/-- Recursion of make_trigrams over the remaining input, carrying the last two
queue slots.  On each input element the queue shifts and the materialized
window is yielded; at the end of input, if the last slot is not None, one final
window with None shifted in is yielded. -/
def makeTrigramsAux (b c : Option Char) : List Char → List (Char × Char × Char)
  | [] =>
    match c with
    | some cc => [(b.getD ' ', cc, ' ')]
    | none => []
  | x :: rest => (b.getD ' ', c.getD ' ', x) :: makeTrigramsAux c (some x) rest

/-- make_trigrams from trigram.py, as Trigram.__init__ consumes it: over the
characters of a string, starting from the None,None,None queue. -/
def makeTrigrams (s : List Char) : List (Char × Char × Char) :=
  makeTrigramsAux none none s

/-- Trigram set stored by Trigram.__init__ (a Python set of the yielded
tuples). -/
def trigramSet (s : List Char) : Finset (Char × Char × Char) :=
  (makeTrigrams s).toFinset

/-- Modelled from the spec words for claim C6: all sliding windows of length 3
over a list of characters. -/
def windows3 : List Char → List (Char × Char × Char)
  | a :: b :: c :: rest => (a, b, c) :: windows3 (b :: c :: rest)
  | _ => []

/-! ## weights.py and lexer.py: Weights, Token, Option, OptionWord

Scores are Python floats; every float value is a rational, so scores are
modelled over ℚ.  Token identity in Python is object identity; an id field
models it.  The source's Option class is named TokenOption here because Option
is taken by Lean; its words field is derived from the raw words exactly as
Option.__post_init__ builds one OptionWord per raw word with a back-reference
to the option. -/

/-- Weights from weights.py.  These two class attributes are the only ones the
class defines; in particular there is no rule_miss_penalty attribute. -/
structure Weights where
  option_verbatim : ℚ
  option_stem : ℚ
  deriving DecidableEq

/-- Default values of the Weights class attributes: option_verbatim = 1.0 and
option_stem = 0.95. -/
def defaultWeights : Weights :=
  ⟨1, 19 / 20⟩

/-- OptionType from lexer.py. -/
inductive OptionType
  | verbatim
  | neighbor
  | stem
  deriving DecidableEq

/-- Option from lexer.py (renamed, Option is taken by Lean).  The words field
of the source is recovered by TokenOption.words below; tokenId stands for the
back-reference to the owning Token, whose identity is by object. -/
structure TokenOption where
  type : OptionType
  score : ℚ
  tokenId : Nat
  rawWords : List String
  deriving DecidableEq

/-- OptionWord from lexer.py: one word of an option with a back-reference to
it.  The derived word_lower field is the function below. -/
structure OptionWord where
  option : TokenOption
  word : String
  deriving DecidableEq

/-- Derived field word_lower of OptionWord (set in __post_init__). -/
def OptionWord.word_lower (w : OptionWord) : List Char :=
  pyLower w.word.toList

/-- Words of an option, one OptionWord per raw word, as Option.__post_init__
builds them. -/
def TokenOption.words (o : TokenOption) : List OptionWord :=
  o.rawWords.map (fun w => ⟨o, w⟩)

/-- Neighbor from lexer.py: one spell-check suggestion, split into words, with
its trigram similarity (a rational: a ratio of set cardinalities). -/
structure Neighbor where
  words : List String
  sim : ℚ
  deriving DecidableEq

/-- Token from lexer.py, after exploration: surface word, stems and neighbors
as explore() filled them, and the lexer's weights reached through the
token.weights property.  Identity is by object, modelled by id. -/
structure Token where
  id : Nat
  word : String
  stems : List String
  neighbors : List Neighbor
  weights : Weights
  deriving DecidableEq

/-- Token._make_options_verbatim: the word itself, scored option_verbatim. -/
def Token.makeOptionsVerbatim (t : Token) : List TokenOption :=
  [⟨OptionType.verbatim, t.weights.option_verbatim, t.id, [t.word]⟩]

/-- Token._make_options_stem: one option per stem, scored option_stem. -/
def Token.makeOptionsStem (t : Token) : List TokenOption :=
  t.stems.map (fun s => ⟨OptionType.stem, t.weights.option_stem, t.id, [s]⟩)

/-- Token._make_options_neighbors: one option per neighbor, scored by its
similarity. -/
def Token.makeOptionsNeighbors (t : Token) : List TokenOption :=
  t.neighbors.map (fun n => ⟨OptionType.neighbor, n.sim, t.id, n.words⟩)

/-- Sort key relation of Token._make_options: sorted by score with
reverse=True, so an element precedes another when its score is at least as
large.  Python's sort is stable; Mathlib's insertion sort below is stable as
well. -/
def scoreGE (a b : TokenOption) : Prop :=
  b.score ≤ a.score

instance : DecidableRel scoreGE :=
  fun a b => inferInstanceAs (Decidable (b.score ≤ a.score))

instance : IsTotal TokenOption scoreGE :=
  ⟨fun a b => le_total b.score a.score⟩

instance : IsTrans TokenOption scoreGE :=
  ⟨fun _ _ _ h1 h2 => le_trans h2 h1⟩

/-- Token._make_options: chain the three kinds and sort by score
descending. -/
def Token.makeOptions (t : Token) : List TokenOption :=
  List.insertionSort scoreGE
    (t.makeOptionsVerbatim ++ t.makeOptionsStem ++ t.makeOptionsNeighbors)

/-! ## rules.py and parser.py: the data model of nominations and the parser

Rules are user-supplied objects; the embedding keeps rule evaluation abstract
as a function from the selection to an optional rational (None signals
rejection).  A Flag carries the producing rule and an arbitrary payload; both
are opaque to the parser, so the embedding identifies a flag by a number. -/

/-- Flag from rules.py, identified opaquely (it holds the producing rule and a
payload neither of which the parser inspects). -/
structure Flag where
  flagId : Nat
  deriving DecidableEq

/-- Nomination from rules.py: a rule's claim on one OptionWord. -/
structure Nomination where
  word : OptionWord
  flag : Flag
  deriving DecidableEq

/-- WordMatch from rules.py: Union of NoMatch and Nomination, a tagged sum. -/
inductive WordMatch
  | noMatch
  | nom (n : Nomination)
  deriving DecidableEq

/-- Rule capability: the evaluate method, returning a score or None. -/
structure Rule where
  evaluate : List WordMatch → Option ℚ

/-- RuleInfo from rules.py. -/
structure RuleInfo where
  rule : Rule
  weight : ℚ
  name : String

/-- Insertion of one RuleInfo into the name-keyed dict that Parser.__init__
builds: a repeated name overwrites in place, a fresh name appends (Python dict
insertion-order semantics). -/
def dictUpdate (m : List RuleInfo) (i : RuleInfo) : List RuleInfo :=
  if m.any (fun j => j.name = i.name) then
    m.map (fun j => if j.name = i.name then i else j)
  else m ++ [i]

/-- Parser state: the values of self.rules (a dict keyed by rule name, held
here in insertion order) and the weights. -/
structure Parser where
  rules : List RuleInfo
  weights : Weights

/-- Parser.__init__: index the rules by name. -/
def Parser.make (rules : List RuleInfo) (weights : Weights) : Parser :=
  ⟨rules.foldl dictUpdate [], weights⟩

/-- Totals loop of Parser.score, recursing over the rules in order.  For each
rule the selection is evaluated; when the result is None the source reads
self.weights.rule_miss_penalty, but the Weights class defines only
option_verbatim and option_stem, so Python raises AttributeError at that point
and the remaining rules are not evaluated. -/
def scoreTotalsList (rules : List RuleInfo) (noms : List WordMatch) : Except PyErr (List ℚ) :=
  match rules with
  | [] => Except.ok []
  | ri :: rest =>
    match ri.rule.evaluate noms with
    | some s => (scoreTotalsList rest noms).map (fun ts => (s * ri.weight) :: ts)
    | none => Except.error PyErr.attributeError

/-- Totals of Parser.score over the parser's rules. -/
def Parser.scoreTotals (p : Parser) (noms : List WordMatch) : Except PyErr (List ℚ) :=
  scoreTotalsList p.rules noms

/-- Parser.score from parser.py: the square root of the sum of the squared
weighted rule scores. -/
noncomputable def Parser.score (p : Parser) (noms : List WordMatch) : Except PyErr ℝ :=
  (p.scoreTotals noms).map (fun total => Real.sqrt (((total.map (fun s => s ^ 2)).sum : ℚ) : ℝ))

/-! ### Parser._order_nominations: the per-option word_nom table (claim C1)

The source initializes word_nom as the list replication of the one-element
list holding a single list containing NoMatch.  Python list replication copies
the reference: every slot of word_nom is the same list object, and each
word_nom[i].extend(...) call of the loop mutates that shared object.  When the
loop over enumerate(option.words) ends, the single shared list holds NoMatch
followed by the nominations bucketed at every word of the option, in word
order, and every slot of word_nom is that list. -/

/-- word_nom as Parser._order_nominations actually computes it for one option,
given the nominations bucket of _make_nominations restricted to this token and
option.  Each slot aliases one shared list; its final contents are NoMatch
followed by the nominations of all the option's words in order. -/
def wordNomCode (noms : OptionWord → List Nomination) (ws : List OptionWord) :
    List (List WordMatch) :=
  let shared : List WordMatch :=
    WordMatch.noMatch :: ws.flatMap (fun w => (noms w).map WordMatch.nom)
  ws.map (fun _ => shared)

/-- Modelled from the spec words for claim C1: independent per-slot candidate
lists, slot i holding exactly NoMatch plus the nominations bucketed at word
i. -/
def wordNomSpec (noms : OptionWord → List Nomination) (ws : List OptionWord) :
    List (List WordMatch) :=
  ws.map (fun w => WordMatch.noMatch :: (noms w).map WordMatch.nom)

/-! ### parser.py: Interpretation, _Optimizer -/

/-- Interpretation from parser.py: one token together with the tuple of its
candidate nomination sequences. -/
structure Interpretation where
  token : Token
  nominations : List (List WordMatch)

/-- Match from parser.py: the score (a float in the source) and the matched
sequence. -/
structure Match where
  score : ℝ
  matched : List WordMatch

/-- Python int() applied to a float: truncation toward zero. -/
def truncQ (v : ℚ) : ℤ :=
  if 0 ≤ v then ⌊v⌋ else ⌈v⌉

/-- One coordinate of _Optimizer._get_selection: clamp a negative position to
zero; when the position reaches the number of nomination tuples take the
NoMatch fallback, otherwise index with int(pos).  After the clamp the position
is nonnegative, so int() coincides with the floor here.  The getD default is
unreachable because the floor of a position below the length is below the
length. -/
def selectOne (noms : List (List WordMatch)) (pos : ℚ) : List WordMatch :=
  let p := if pos < 0 then 0 else pos
  if (noms.length : ℚ) ≤ p then [WordMatch.noMatch]
  else noms.getD (Int.toNat ⌊p⌋) []

/-- _Optimizer._get_selection: the source walks enumerate(x) and indexes
self.interpretations[i]; with the two sequences of equal length (the optimizer
derives one bound per interpretation) this is the zip below.  The selected
tuples are concatenated by selection.extend(val). -/
def getSelection (interps : List Interpretation) (x : List ℚ) : List WordMatch :=
  (x.zip interps).flatMap (fun q => selectOne q.2.nominations q.1)

/-- Sum under the square root of the extra term of _Optimizer.score: the
squared distances of each coordinate to its Python int() truncation. -/
def fracSqSum (x : List ℚ) : ℚ :=
  ((x.map (fun v => (v - (truncQ v : ℚ)) ^ 2)).sum)

/-- _Optimizer.score: the objective handed to the minimizer; the selection's
rule-ensemble score plus the distance of the coordinates to their
truncations.  Coordinates are floats in the source, hence rationals here. -/
noncomputable def optimizerObjective (p : Parser) (interps : List Interpretation)
    (x : List ℚ) : Except PyErr ℝ :=
  (p.score (getSelection interps x)).map (fun s => s + Real.sqrt ((fracSqSum x : ℚ) : ℝ))

/-- Modelled from the spec words for claim C3: the same objective with the
fractional penalty computed from the mathematical floor of each coordinate. -/
noncomputable def optimizerObjectiveFloor (p : Parser) (interps : List Interpretation)
    (x : List ℚ) : Except PyErr ℝ :=
  (p.score (getSelection interps x)).map
    (fun s => s + Real.sqrt (((x.map (fun v => (v - (⌊v⌋ : ℚ)) ^ 2)).sum : ℚ) : ℝ))

/-- Sum of the squared rule weights: the square of max_score in
_Optimizer.optimize. -/
def maxScoreSq (p : Parser) : ℚ :=
  (p.rules.map (fun r => r.weight ^ 2)).sum

/-- _Optimizer.optimize.  The SciPy shgo call is external; its outcome enters
as the success flag and the coordinate vector x, and per the SciPy contract
the reported minimum opt.fun is the objective evaluated at opt.x.  On failure
the source returns the zero score and one NoMatch per interpretation.  On
success it divides by max_score with no zero guard: Python float division by
zero raises ZeroDivisionError, and max_score (the real square root of the
rational maxScoreSq, which is a sum of squares and hence nonnegative) is zero
exactly when maxScoreSq is zero, which is the condition checked below. -/
noncomputable def optimize (p : Parser) (interps : List Interpretation)
    (success : Bool) (x : List ℚ) : Except PyErr Match :=
  if success = false then
    Except.ok ⟨0, List.replicate interps.length WordMatch.noMatch⟩
  else
    (optimizerObjective p interps x).bind (fun fStar =>
      if maxScoreSq p = 0 then Except.error PyErr.zeroDivisionError
      else
        Except.ok ⟨max 0 ((Real.sqrt ((maxScoreSq p : ℚ) : ℝ) - fStar) /
            Real.sqrt ((maxScoreSq p : ℚ) : ℝ)),
          getSelection interps x⟩)

/-! ### Concrete fixtures used by counterexamples and witnesses -/

/-- A rule whose evaluate always returns None. -/
def noneRule : Rule :=
  ⟨fun _ => none⟩

/-- A rule whose evaluate always returns the score 0. -/
def zeroRule : Rule :=
  ⟨fun _ => some 0⟩

/-- A parser holding the single always-zero rule with weight 1. -/
def parserOne : Parser :=
  ⟨[⟨zeroRule, 1, "zero"⟩], defaultWeights⟩

/-- A parser holding no rules at all. -/
def parserEmpty : Parser :=
  ⟨[], defaultWeights⟩

/-- A token fixture. -/
def tokenA : Token :=
  ⟨0, "aa", [], [], defaultWeights⟩

/-- An option fixture with two words, as a two-word neighbor suggestion
produces. -/
def optionAB : TokenOption :=
  ⟨OptionType.neighbor, 1, 0, ["aa", "bb"]⟩

/-- The first word of optionAB. -/
def wordA : OptionWord :=
  ⟨optionAB, "aa"⟩

/-- The second word of optionAB. -/
def wordB : OptionWord :=
  ⟨optionAB, "bb"⟩

/-- One nomination sitting at the first word of optionAB. -/
def nominationA : Nomination :=
  ⟨wordA, ⟨0⟩⟩

/-- One nomination sitting at the second word of optionAB. -/
def nominationB : Nomination :=
  ⟨wordB, ⟨1⟩⟩

/-- A nominations bucket holding exactly one nomination, at the first word of
optionAB. -/
def bucketA (w : OptionWord) : List Nomination :=
  if w.word = "aa" then [nominationA] else []

/-- An interpretations fixture: one token whose nominations tuple is empty. -/
def interpsEmptyNoms : List Interpretation :=
  [⟨tokenA, []⟩]

/-- An interpretations fixture: one token with a single candidate sequence of
two word matches, as a two-word option yields. -/
def interpsTwoWord : List Interpretation :=
  [⟨tokenA, [[WordMatch.nom nominationA, WordMatch.nom nominationB]]⟩]

/-! ## Python re engine for the fr_FR normalization cascade (lexer.py, langs.py)

Lexer.normalize applies the usual_typos list of (compiled pattern,
replacement) pairs of the fr_FR profile, each by one global re.sub, in order.
The engine below mirrors Python's backtracking semantics: a pattern maps a
state to the list of all ways it can match, ordered by the engine's
backtracking priority (alternatives left to right, quantifiers greedy), so the
head of the list is the match Python takes.  re.sub scans left to right,
replacing each leftmost match and resuming after it.  Every pattern of the
cascade consumes at least one character whenever it matches. -/

/-- Matching state: the remaining input, whether that position is the start of
the subject string (for the caret anchor), and the captured groups, most
recent first (re keeps the last capture of a repeated group, which is the
first hit of the association list). -/
structure MState where
  rest : List Char
  isStart : Bool
  groups : List (Nat × List Char)

/-- A pattern: all ways of matching at a state, in backtracking priority
order. -/
def Pat : Type :=
  MState → List MState

/-- Single character of a class. -/
def pChar (f : Char → Bool) : Pat :=
  fun s =>
    match s.rest with
    | c :: r => if f c then [⟨r, false, s.groups⟩] else []
    | [] => []

/-- Literal character sequence. -/
def pLit : List Char → Pat
  | [] => fun s => [s]
  | c :: cs => fun s =>
    match s.rest with
    | d :: r => if d = c then pLit cs ⟨r, false, s.groups⟩ else []
    | [] => []

/-- Sequencing: priorities multiply lexicographically. -/
def pSeq (a b : Pat) : Pat :=
  fun s => (a s).flatMap b

/-- Alternation: the left alternative has priority, as in re. -/
def pAlt (a b : Pat) : Pat :=
  fun s => a s ++ b s

/-- Greedy option: matching is preferred over skipping. -/
def pOpt (a : Pat) : Pat :=
  fun s => a s ++ [s]

/-- Greedy star with explicit fuel; iterations that consume nothing are
dropped (no pattern of the cascade can match empty inside a star, so the
filter never fires on the cascade and only serves termination). -/
def pStarF : Nat → Pat → Pat
  | 0, _ => fun s => [s]
  | n + 1, a => fun s =>
    ((a s).filter (fun s2 => s2.rest.length < s.rest.length)).flatMap (pStarF n a) ++ [s]

/-- Greedy star. -/
def pStar (a : Pat) : Pat :=
  fun s => pStarF s.rest.length a s

/-- Greedy plus. -/
def pPlus (a : Pat) : Pat :=
  pSeq a (pStar a)

/-- Exactly three repetitions. -/
def pExact3 (a : Pat) : Pat :=
  pSeq a (pSeq a a)

/-- One to three repetitions, greedy: three first, then two, then one. -/
def pRange13 (a : Pat) : Pat :=
  pAlt (pExact3 a) (pAlt (pSeq a a) a)

/-- At least three repetitions, greedy. -/
def pAtLeast3 (a : Pat) : Pat :=
  pSeq a (pSeq a (pSeq a (pStar a)))

/-- Caret anchor: matches the empty string at the start of the subject. -/
def pBegin : Pat :=
  fun s => if s.isStart then [s] else []

/-- Negative lookahead for a digit. -/
def pNoDigit : Pat :=
  fun s =>
    match s.rest with
    | c :: _ => if c.isDigit then [] else [s]
    | [] => [s]

/-- Capturing group n. -/
def pGroup (n : Nat) (a : Pat) : Pat :=
  fun s => (a s).map (fun s2 =>
    ⟨s2.rest, s2.isStart, (n, s.rest.take (s.rest.length - s2.rest.length)) :: s2.groups⟩)

/-- One piece of a template replacement string. -/
inductive RepPart
  | lit (s : List Char)
  | grp (n : Nat)

/-- A replacement: either a template with backreferences, or a function of the
whole matched text (Python lambdas taking m.group(0)). -/
inductive Repl
  | template (parts : List RepPart)
  | func (f : List Char → List Char)

/-- Group lookup in a replacement; an optional group that did not take part in
the match expands to the empty string (Python 3.5 and later re.sub). -/
def lookupGroup (gs : List (Nat × List Char)) (n : Nat) : List Char :=
  match gs.find? (fun g => g.1 = n) with
  | some g => g.2
  | none => []

/-- Expansion of a replacement for one match. -/
def applyRepl : Repl → List Char → List (Nat × List Char) → List Char
  | Repl.template parts, _, gs =>
    parts.flatMap (fun part =>
      match part with
      | RepPart.lit l => l
      | RepPart.grp n => lookupGroup gs n)
  | Repl.func f, matched, _ => f matched

/-- Attempt of a pattern at one position: take the engine's first match and
produce the consumed length and the replacement text. -/
def tryPat (p : Pat) (rep : Repl) (atStart : Bool) (cs : List Char) :
    Option (Nat × List Char) :=
  match p ⟨cs, atStart, []⟩ with
  | [] => none
  | st :: _ =>
    let k := cs.length - st.rest.length
    some (k, applyRepl rep (cs.take k) st.groups)

/-- Scan of re.sub: at each position try the pattern; on a match emit the
replacement and resume after the consumed text, else keep the character.  The
zero-length-match guard cannot fire on the cascade's patterns (they all
consume) and only keeps the recursion well-founded via the fuel. -/
def subScanF : Nat → Pat → Repl → Bool → List Char → List Char
  | 0, _, _, _, cs => cs
  | _ + 1, _, _, _, [] => []
  | n + 1, p, rep, atStart, c :: rest =>
    match tryPat p rep atStart (c :: rest) with
    | some (k, out) =>
      if k = 0 then c :: subScanF n p rep false rest
      else out ++ subScanF n p rep false (List.drop k (c :: rest))
    | none => c :: subScanF n p rep false rest

/-- One global re.sub over a string. -/
def reSub (p : Pat) (rep : Repl) (cs : List Char) : List Char :=
  subScanF (cs.length + 1) p rep true cs

/-! ### Character classes of the fr_FR patterns -/

/-- Python \s for the inputs at hand. -/
def isPySpace (c : Char) : Bool :=
  c = ' ' || c = '\t' || c = '\n' || c = '\r' || c = '\x0b' || c = '\x0c'

/-- The accented lowercase letters the fr_FR classes enumerate. -/
def frLower : List Char :=
  "éàèùâêîôûëïüÿç".toList

/-- The accented uppercase letters the fr_FR classes enumerate. -/
def frUpper : List Char :=
  "ÉÀÈÙÂÊÎÔÛËÏÜŸÇ".toList

/-- Python \w over the repertoire this code handles: ASCII letters and digits,
the underscore, and the accented French letters.  The typographic apostrophe
and punctuation are not word characters. -/
def isPyWordChar (c : Char) : Bool :=
  c.isAlpha || c.isDigit || c = '_' || frLower.contains c || frUpper.contains c

/-- The class [a-zéàèùâêîôûëïüÿç] under re.IGNORECASE (rule 3). -/
def isFrLetterCI (c : Char) : Bool :=
  ('a' ≤ c && c ≤ 'z') || ('A' ≤ c && c ≤ 'Z') || frLower.contains c || frUpper.contains c

/-- The class [A-ZÉÀÈÙÂÊÎÔÛËÏÜŸÇ] (rule 9, no flags). -/
def isFrUpper (c : Char) : Bool :=
  ('A' ≤ c && c ≤ 'Z') || frUpper.contains c

/-- The class [a-zéàèùâêîôûëïüÿç] (rule 9 tail, no flags). -/
def isFrLowerOnly (c : Char) : Bool :=
  ('a' ≤ c && c ≤ 'z') || frLower.contains c

/-- The ASCII apostrophe, written by code point to keep it out of literals. -/
def apos : Char :=
  Char.ofNat 39

/-- The typographic apostrophe U+2019. -/
def rapos : Char :=
  Char.ofNat 8217

/-- Whitespace or dot or dash, the class stripped out of numbers by the first
rewrite's replacement lambda (_NASTY_NUM_CHAR_FR). -/
def isNastyNumChar (c : Char) : Bool :=
  c = '.' || c = '-' || isPySpace c

/-! ### The eleven usual_typos rewrites of fr_FR (langs.py) -/

/-- Shorthand for a one-character literal template piece. -/
def litOf (s : String) : RepPart :=
  RepPart.lit s.toList

/-- Digit class. -/
def pDigit : Pat :=
  pChar Char.isDigit

/-- Zero or more spaces. -/
def pSp0 : Pat :=
  pStar (pChar isPySpace)

/-- One or more spaces. -/
def pSp1 : Pat :=
  pPlus (pChar isPySpace)

/-- Number rewrite, first alternative, thousands groups separated by dots. -/
def pNumA1 : Pat :=
  pSeq (pRange13 pDigit)
    (pSeq (pStar (pSeq pSp0 (pSeq (pChar (fun c => c = '.')) (pSeq pSp0 (pExact3 pDigit)))))
      (pOpt (pSeq pSp0 (pSeq (pChar (fun c => c = ',')) (pSeq pSp0 (pPlus pDigit))))))

/-- Number rewrite, second alternative, thousands groups separated by
spaces. -/
def pNumA2 : Pat :=
  pSeq (pRange13 pDigit)
    (pSeq (pStar (pSeq pSp1 (pExact3 pDigit)))
      (pOpt (pSeq pSp0 (pSeq (pChar (fun c => c = ',')) (pSeq pSp0 (pPlus pDigit))))))

/-- Number rewrite, currency tail. -/
def pCurrency : Pat :=
  pSeq pSp0 (pChar (fun c => c = '€' || c = '$' || c = '%'))

/-- Number rewrite, phone-number alternative: at least four digit groups
separated by optional dots or dashes. -/
def pNumB : Pat :=
  pSeq (pPlus pDigit)
    (pAtLeast3 (pSeq pSp0 (pSeq (pOpt (pSeq (pChar (fun c => c = '.' || c = '-')) pSp0))
      (pSeq (pPlus pDigit) pNoDigit))))

/-- Rewrite 1: numbers, amounts and phone numbers; the replacement strips
every dot, dash and whitespace character from the match. -/
def frRule1 : Pat × Repl :=
  (pAlt (pSeq (pAlt pNumA1 (pAlt pNumA2 (pPlus pDigit))) pCurrency) pNumB,
   Repl.func (fun m => m.filter (fun c => !isNastyNumChar c)))

/-- Rewrite 2: the three-dot ellipsis becomes the single-character one. -/
def frRule2 : Pat × Repl :=
  (pLit "...".toList, Repl.template [litOf "…"])

/-- Rewrite 3: commas adjacent to a letter get spaces around them. -/
def frRule3 : Pat × Repl :=
  (pSeq (pGroup 1 (pSeq (pChar isFrLetterCI) pSp0))
    (pSeq (pGroup 2 (pChar (fun c => c = ',')))
      (pOpt (pGroup 3 (pSeq pSp0 (pChar isPyWordChar))))),
   Repl.template [RepPart.grp 1, litOf " ", RepPart.grp 2, litOf " ", RepPart.grp 3])

/-- Rewrite 4: spaces around sentence punctuation after a word character or a
closing parenthesis. -/
def frRule4 : Pat × Repl :=
  (pSeq (pGroup 1 (pChar (fun c => isPyWordChar c || c = ')')))
    (pSeq pSp0
      (pSeq (pGroup 2 (pChar (fun c =>
          c = '!' || c = '?' || c = ';' || c = '…' || c = '.' || c = '/')))
        (pOpt (pGroup 3 (pSeq pSp0 (pChar isPyWordChar)))))),
   Repl.template [RepPart.grp 1, litOf " ", RepPart.grp 2, litOf " ", RepPart.grp 3])

/-- Rewrite 5: spaces inside parentheses. -/
def frRule5 : Pat × Repl :=
  (pSeq (pChar (fun c => c = '('))
    (pSeq (pGroup 1 (pPlus (pChar (fun c => !(c = ')')))))
      (pChar (fun c => c = ')'))),
   Repl.template [litOf "( ", RepPart.grp 1, litOf " )"])

/-- Rewrite 6: a straight apostrophe between word characters becomes the
typographic one. -/
def frRule6 : Pat × Repl :=
  (pSeq (pGroup 1 (pChar isPyWordChar))
    (pSeq pSp0
      (pSeq (pChar (fun c => c = apos))
        (pSeq pSp0 (pGroup 2 (pChar isPyWordChar))))),
   Repl.template [RepPart.grp 1, RepPart.lit [rapos], RepPart.grp 2])

/-- Rewrite 7: the t-il and t-elle elisions. -/
def frRule7 : Pat × Repl :=
  (pSeq (pGroup 1 (pChar (fun c => c = 't')))
    (pSeq (pChar (fun c => c = rapos))
      (pGroup 2 (pAlt (pLit "il".toList) (pLit "elle".toList)))),
   Repl.template [RepPart.grp 1, litOf "-", RepPart.grp 2])

/-- Rewrite 8: whitespace runs collapse to one space. -/
def frRule8 : Pat × Repl :=
  (pPlus (pChar isPySpace), Repl.template [litOf " "])

/-- The inner rewrite of rule 9 (_INITIAL_CHAR): a word character followed by
a possibly spaced dot becomes that character, a dot and one space. -/
def initialCharSub (m : List Char) : List Char :=
  reSub (pSeq (pGroup 1 (pChar isPyWordChar)) (pSeq pSp0 (pSeq (pChar (fun c => c = '.')) pSp0)))
    (Repl.template [RepPart.grp 1, litOf ". "]) m

/-- Rewrite 9: name-initial runs such as M.L.Blindon get spaced into
M. L. Blindon via the inner _INITIAL_CHAR substitution on the match. -/
def frRule9 : Pat × Repl :=
  (pSeq (pPlus (pSeq (pChar isFrUpper) (pSeq pSp0 (pSeq (pChar (fun c => c = '.')) pSp0))))
    (pSeq (pChar isFrUpper) (pChar isFrLowerOnly)),
   Repl.func initialCharSub)

/-- The inner rewrite of rule 10 (_DATE_SEP): a possibly spaced dot or slash
becomes a bare slash. -/
def dateSepSub (m : List Char) : List Char :=
  reSub (pSeq pSp0 (pSeq (pChar (fun c => c = '.' || c = '/')) pSp0))
    (Repl.template [litOf "/"]) m

/-- Two digits. -/
def pD2 : Pat :=
  pSeq pDigit pDigit

/-- Two or four digits, in the alternation order of the pattern (two first,
backtracking into four through the lookahead). -/
def pD2or4 : Pat :=
  pAlt pD2 (pSeq pD2 pD2)

/-- One date body with the given separator class. -/
def pDateBody (sep : Char → Bool) : Pat :=
  pSeq pD2 (pSeq pSp0 (pSeq (pChar sep) (pSeq pSp0 (pSeq pD2 (pSeq pSp0 (pSeq (pChar sep)
    (pSeq pSp0 (pSeq pD2or4 (pSeq pNoDigit pSp0)))))))))

/-- Rewrite 10: dates with slash or dot separators, preceded by a space or the
start of the string, are normalized through the _DATE_SEP substitution on the
match. -/
def frRule10 : Pat × Repl :=
  (pSeq (pAlt (pChar isPySpace) pBegin)
    (pAlt (pDateBody (fun c => c = '/')) (pDateBody (fun c => c = '.'))),
   Repl.func dateSepSub)

/-- Rewrite 11 strips leading and trailing whitespace: the pattern is the
anchored alternation of a leading and a trailing whitespace run, each
replaced by nothing. -/
def stripEnds (cs : List Char) : List Char :=
  ((cs.dropWhile isPySpace).reverse.dropWhile isPySpace).reverse

/-- The ordered rewrite cascade of fr_FR.usual_typos, rules 1 to 10; rule 11
is the strip, applied last. -/
def frUsualTypos : List (Pat × Repl) :=
  [frRule1, frRule2, frRule3, frRule4, frRule5, frRule6, frRule7, frRule8, frRule9, frRule10]

/-- Lexer.normalize for the fr_FR profile: every usual_typos rewrite applied
in order as one global substitution each, later rules seeing the output of
earlier ones. -/
def Lexer.normalize (cs : List Char) : List Char :=
  stripEnds (frUsualTypos.foldl (fun t pr => reSub pr.1 pr.2 t) cs)

/-- A string with two straight-apostrophe contractions sharing their middle
letter: the characters a, apostrophe, b, apostrophe, c. -/
def strApos : List Char :=
  ['a', apos, 'b', apos, 'c']

/-! ## Supporting lemmas and claim theorems -/

theorem charOfNat_toNat {m : Nat} (h : m < 55296) : (Char.ofNat m).toNat = m := by
  unfold Char.ofNat
  rw [dif_pos (Or.inl h)]
  rfl

theorem toLower_mem_lower {c : Char} (h : isAsciiLetter c = true) :
    'a' ≤ c.toLower ∧ c.toLower ≤ 'z' := by
  have h' : ('a' ≤ c ∧ c ≤ 'z') ∨ ('A' ≤ c ∧ c ≤ 'Z') := by
    simpa [isAsciiLetter, Bool.or_eq_true, Bool.and_eq_true, decide_eq_true_eq] using h
  rcases h' with ⟨h1, h2⟩ | ⟨h1, h2⟩
  · have k1 : (97 : Nat) ≤ c.toNat := h1
    unfold Char.toLower
    rw [if_neg (by omega)]
    exact ⟨h1, h2⟩
  · have k1 : (65 : Nat) ≤ c.toNat := h1
    have k2 : c.toNat ≤ 90 := h2
    unfold Char.toLower
    rw [if_pos ⟨k1, k2⟩]
    have hv : (Char.ofNat (c.toNat + 32)).toNat = c.toNat + 32 := charOfNat_toNat (by omega)
    constructor
    · show (97 : Nat) ≤ (Char.ofNat (c.toNat + 32)).toNat
      omega
    · show (Char.ofNat (c.toNat + 32)).toNat ≤ 122
      omega

theorem sep_not_letter {c : Char} (h : isLocSep c = true) : isAsciiLetter c = false := by
  have h' : c = '-' ∨ c = '_' := by
    simpa [isLocSep, Bool.or_eq_true, decide_eq_true_eq] using h
  rcases h' with rfl | rfl <;> rfl

theorem localeGroup2_some {cs g2 : List Char} (h : localeGroup2 cs = some g2) :
    ∃ u, cs = g2 ++ u ∧ g2.all isAsciiLetter = true ∧ (g2.length = 2 ∨ g2.length = 3) := by
  rcases cs with _ | ⟨a, _ | ⟨b, _ | ⟨c, rest⟩⟩⟩
  · simp [localeGroup2] at h
  · simp [localeGroup2] at h
  · by_cases hab : (isAsciiLetter a && isAsciiLetter b) = true
    · simp only [localeGroup2, if_pos hab, Option.some.injEq] at h
      subst h
      exact ⟨[], by simp, by simpa [Bool.and_eq_true] using hab, Or.inl rfl⟩
    · simp [localeGroup2, hab] at h
  · by_cases hab : (isAsciiLetter a && isAsciiLetter b) = true
    · by_cases hc : isAsciiLetter c = true
      · simp only [localeGroup2, if_pos hab, if_pos hc, Option.some.injEq] at h
        subst h
        refine ⟨rest, rfl, ?_, Or.inr rfl⟩
        simp [Bool.and_eq_true] at hab ⊢
        exact ⟨hab.1, hab.2, hc⟩
      · simp only [localeGroup2, if_pos hab, if_neg hc, Option.some.injEq] at h
        subst h
        refine ⟨c :: rest, rfl, ?_, Or.inl rfl⟩
        simpa [Bool.and_eq_true] using hab
    · simp [localeGroup2, hab] at h

theorem localeGroup2_append {g2 : List Char} (u : List Char)
    (hall : g2.all isAsciiLetter = true) (hlen : g2.length = 2 ∨ g2.length = 3) :
    (localeGroup2 (g2 ++ u)).isSome = true := by
  rcases hlen with h2 | h3
  · obtain ⟨a, b, rfl⟩ := List.length_eq_two.mp h2
    simp [List.all_cons, Bool.and_eq_true] at hall
    rcases u with _ | ⟨c, u⟩
    · simp [localeGroup2, hall.1, hall.2]
    · by_cases hc : isAsciiLetter c = true <;>
        simp [localeGroup2, hall.1, hall.2, hc]
  · obtain ⟨a, b, c, rfl⟩ := List.length_eq_three.mp h3
    simp [List.all_cons, Bool.and_eq_true] at hall
    simp [localeGroup2, hall.1, hall.2.1, hall.2.2]

theorem localeMatch_some {cs : List Char} {g : List Char × List Char}
    (h : localeMatch cs = some g) :
    (∃ t u, cs = t ++ u ∧ anchoredLocale t = true) ∧
      g.1.all isAsciiLetter = true ∧ g.2.all isAsciiLetter = true := by
  rcases cs with _ | ⟨a, _ | ⟨b, _ | ⟨c, _ | ⟨d, rest⟩⟩⟩⟩
  · simp [localeMatch] at h
  · simp [localeMatch] at h
  · simp [localeMatch] at h
  · simp [localeMatch] at h
  · by_cases hab : (isAsciiLetter a && isAsciiLetter b) = true
    · have hab' := hab
      simp [Bool.and_eq_true] at hab'
      by_cases hc : isAsciiLetter c = true
      · by_cases hd : isLocSep d = true
        · simp only [localeMatch, if_pos hab, if_pos hc, if_pos hd,
            Option.map_eq_some'] at h
          obtain ⟨g2, hg2, rfl⟩ := h
          obtain ⟨u, rfl, hallg2, hleng2⟩ := localeGroup2_some hg2
          refine ⟨⟨a :: b :: c :: d :: g2, u, by simp, ?_⟩, ?_, hallg2⟩
          · have : anchoredLocaleAt 3 (a :: b :: c :: d :: g2) = true := by
              simp [anchoredLocaleAt, hab'.1, hab'.2, hc, hd, hallg2, hleng2]
            simp [anchoredLocale, this]
          · simp [hab'.1, hab'.2, hc]
        · simp [localeMatch, hab, hc, hd] at h
      · by_cases hcs : isLocSep c = true
        · simp only [localeMatch, if_pos hab, if_neg hc, if_pos hcs,
            Option.map_eq_some'] at h
          obtain ⟨g2, hg2, rfl⟩ := h
          obtain ⟨u, hdrest, hallg2, hleng2⟩ := localeGroup2_some hg2
          refine ⟨⟨a :: b :: c :: g2, u, by simp [hdrest], ?_⟩, ?_, hallg2⟩
          · have : anchoredLocaleAt 2 (a :: b :: c :: g2) = true := by
              simp [anchoredLocaleAt, hab'.1, hab'.2, hcs, hallg2, hleng2]
            simp [anchoredLocale, this]
          · simp [hab'.1, hab'.2]
        · simp [localeMatch, hab, hc, hcs] at h
    · simp [localeMatch, hab] at h

theorem localeMatch_append {t : List Char} (u : List Char) (h : anchoredLocale t = true) :
    (localeMatch (t ++ u)).isSome = true := by
  have h' : anchoredLocaleAt 2 t = true ∨ anchoredLocaleAt 3 t = true := by
    simpa [anchoredLocale, Bool.or_eq_true] using h
  rcases h' with h2 | h3
  · rcases t with _ | ⟨a, _ | ⟨b, rest⟩⟩
    · simp [anchoredLocaleAt] at h2
    · simp [anchoredLocaleAt] at h2
    · rcases rest with _ | ⟨c, g2⟩
      · simp [anchoredLocaleAt] at h2
      · simp only [anchoredLocaleAt, List.take_succ_cons, List.take_zero, List.drop_succ_cons,
          List.drop_zero, Bool.and_eq_true, decide_eq_true_eq, List.all_cons,
          List.all_nil, Bool.or_eq_true, List.length_cons, List.length_nil] at h2
        obtain ⟨⟨_, ha, hb, _⟩, ⟨hc, hg2⟩, hlen⟩ := h2
        have hlen' : g2.length = 2 ∨ g2.length = 3 := hlen
        have hsome := localeGroup2_append u hg2 hlen'
        have hcne : isAsciiLetter c = false := sep_not_letter hc
        obtain ⟨d, rest2, hsplit⟩ : ∃ d rest2, g2 ++ u = d :: rest2 := by
          rcases hlen' with hl | hl
          · obtain ⟨x, y, rfl⟩ := List.length_eq_two.mp hl
            exact ⟨x, y :: u, rfl⟩
          · obtain ⟨x, y, z, rfl⟩ := List.length_eq_three.mp hl
            exact ⟨x, y :: z :: u, rfl⟩
        have : (a :: b :: c :: (g2 ++ u)) = a :: b :: c :: d :: rest2 := by rw [hsplit]
        simp only [List.cons_append, this]
        simp only [localeMatch, ha, hb, hcne, hc]
        simp only [Bool.and_self, if_true, Bool.false_eq_true, if_false, if_pos]
        rw [← hsplit]
        simpa using hsome
  · rcases t with _ | ⟨a, _ | ⟨b, _ | ⟨c, rest⟩⟩⟩
    · simp [anchoredLocaleAt] at h3
    · simp [anchoredLocaleAt] at h3
    · simp [anchoredLocaleAt] at h3
    · rcases rest with _ | ⟨d, g2⟩
      · simp [anchoredLocaleAt] at h3
      · simp only [anchoredLocaleAt, List.take_succ_cons, List.take_zero, List.drop_succ_cons,
          List.drop_zero, Bool.and_eq_true, decide_eq_true_eq, List.all_cons,
          List.all_nil, Bool.or_eq_true, List.length_cons, List.length_nil] at h3
        obtain ⟨⟨_, ha, hb, hcl, _⟩, ⟨hd, hg2⟩, hlen⟩ := h3
        have hlen' : g2.length = 2 ∨ g2.length = 3 := hlen
        have hsome := localeGroup2_append u hg2 hlen'
        simp only [List.cons_append, localeMatch, ha, hb, hcl, hd]
        simp only [Bool.and_self, if_true]
        simpa using hsome

/-- Claim C5 (corrected).  Locale.parse(s) succeeds exactly on the strings of
which some prefix matches the locale pattern (LOCALE_RE is applied with
re.match, which does not anchor the end of the string), and both parts of any
returned Locale consist of lowercase ASCII letters. -/
theorem locale_parse_c5 (s : String) :
    ((Locale.parse s).isOk = true ↔ ∃ t u, s.toList = t ++ u ∧ anchoredLocale t = true) ∧
    ∀ l, Locale.parse s = Except.ok l →
      (∀ c ∈ l.lang.toList, 'a' ≤ c ∧ c ≤ 'z') ∧ ∀ c ∈ l.region.toList, 'a' ≤ c ∧ c ≤ 'z' := by
  constructor
  · constructor
    · intro hok
      unfold Locale.parse at hok
      cases hm : localeMatch s.toList with
      | none => rw [hm] at hok; simp [Except.isOk, Except.toBool] at hok
      | some g => exact (localeMatch_some hm).1
    · rintro ⟨t, u, heq, ha⟩
      have hs := localeMatch_append u ha
      rw [← heq] at hs
      unfold Locale.parse
      cases hm : localeMatch s.toList with
      | none => rw [hm] at hs; simp at hs
      | some g => simp [Except.isOk, Except.toBool]
  · intro l hl
    unfold Locale.parse at hl
    cases hm : localeMatch s.toList with
    | none => rw [hm] at hl; cases hl
    | some g =>
      rw [hm] at hl
      obtain ⟨rfl⟩ : Locale.mk (String.mk (pyLower g.1)) (String.mk (pyLower g.2)) = l := by
        cases hl; rfl
      obtain ⟨_, hg1, hg2⟩ := localeMatch_some hm
      constructor
      · intro c hcmem
        simp only [Locale.mk.injEq] at hcmem ⊢
        have : c ∈ pyLower g.1 := hcmem
        obtain ⟨c0, hc0, rfl⟩ := List.mem_map.mp this
        exact toLower_mem_lower (by simpa using List.all_eq_true.mp hg1 c0 hc0)
      · intro c hcmem
        have : c ∈ pyLower g.2 := hcmem
        obtain ⟨c0, hc0, rfl⟩ := List.mem_map.mp this
        exact toLower_mem_lower (by simpa using List.all_eq_true.mp hg2 c0 hc0)

/-- Claim C5, counterexample to the claim as stated: the string fr_FR1 does not
match the anchored pattern (trailing garbage), yet Locale.parse accepts it,
because LOCALE_RE.match only anchors the start. -/
theorem locale_parse_counterexample_c5 :
    (Locale.parse "fr_FR1").isOk = true ∧ anchoredLocale "fr_FR1".toList = false := by
  decide

/-- Witness for claim C5 at the concrete input fr-FR. -/
theorem locale_parse_c5_witness :
    (∃ t u, "fr-FR".toList = t ++ u ∧ anchoredLocale t = true) ∧
      ((∀ c ∈ (Locale.mk "fr" "fr").lang.toList, 'a' ≤ c ∧ c ≤ 'z') ∧
        ∀ c ∈ (Locale.mk "fr" "fr").region.toList, 'a' ≤ c ∧ c ≤ 'z') :=
  ⟨(locale_parse_c5 "fr-FR").1.mp (by decide),
   (locale_parse_c5 "fr-FR").2 ⟨"fr", "fr"⟩ rfl⟩

theorem makeTrigramsAux_windows (l : List Char) : ∀ a b : Char,
    makeTrigramsAux (some a) (some b) l = windows3 (a :: b :: (l ++ [' '])) := by
  induction l with
  | nil => intro a b; simp [makeTrigramsAux, windows3]
  | cons x rest ih =>
    intro a b
    show (a, b, x) :: makeTrigramsAux (some b) (some x) rest
        = (a, b, x) :: windows3 (b :: x :: (rest ++ [' ']))
    rw [ih b x]

/-- Claim C6 (corrected).  The trigram set of s equals the set of sliding
windows of length 3 over s padded with TWO spaces at the start and one space at
the end; for the empty string the set is empty (the None,None,None procedure
emits nothing).  Padding with a single space at each end, as the claim states
it, is refuted by the counterexample below. -/
theorem trigram_windows_c6 (s : List Char) :
    trigramSet s =
      (if s.isEmpty then ([] : List (Char × Char × Char))
       else windows3 (' ' :: ' ' :: s ++ [' '])).toFinset := by
  rcases s with _ | ⟨x, _ | ⟨y, rest⟩⟩
  · rfl
  · rfl
  · unfold trigramSet
    congr 1
    show (' ', ' ', x) :: (' ', x, y) :: makeTrigramsAux (some x) (some y) rest
        = if (x :: y :: rest).isEmpty then ([] : List (Char × Char × Char))
          else windows3 (' ' :: ' ' :: (x :: y :: rest) ++ [' '])
    rw [makeTrigramsAux_windows]
    rfl

/-- Claim C6, counterexample to the claim as stated: for the one-character
string a, padding with a single space at each end yields only the window
built of space, a, space, while the code also emits the window with two
leading spaces. -/
theorem trigram_counterexample_c6 :
    trigramSet ['a'] ≠ (windows3 (' ' :: ['a'] ++ [' '])).toFinset := by
  decide

/-- Claim C7 (confirmed).  For every Token whose options have been
materialized, the options list is sorted by score in non-increasing order and
always contains a verbatim option whose score is the configured
option_verbatim weight. -/
theorem token_options_c7 (t : Token) :
    List.Sorted scoreGE t.makeOptions ∧
      ∃ o ∈ t.makeOptions, o.type = OptionType.verbatim ∧
        o.score = t.weights.option_verbatim := by
  constructor
  · exact List.sorted_insertionSort scoreGE _
  · refine ⟨⟨OptionType.verbatim, t.weights.option_verbatim, t.id, [t.word]⟩, ?_, rfl, rfl⟩
    rw [Token.makeOptions, (List.perm_insertionSort scoreGE _).mem_iff]
    exact List.mem_append_left _ (List.mem_append_left _ (List.mem_singleton.mpr rfl))

/-- Claim C1 (code bug).  In the source, word_nom is initialized by list
replication, so all slots alias one list and every extend call leaks into
every slot: at the concrete two-word option with a single nomination bucketed
at word 0, slot 1 of the computed table also holds that nomination, while the
claimed independent table has slot 1 equal to the NoMatch singleton. -/
theorem order_nominations_alias_c1 :
    wordNomCode bucketA optionAB.words ≠ wordNomSpec bucketA optionAB.words ∧
    (wordNomCode bucketA optionAB.words).getD 1 [] =
      [WordMatch.noMatch, WordMatch.nom nominationA] ∧
    (wordNomSpec bucketA optionAB.words).getD 1 [] = [WordMatch.noMatch] := by
  decide

/-- Claim C2 (code bug).  A rule whose evaluate returns None makes
Parser.score read self.weights.rule_miss_penalty; the Weights class defines no
such attribute, so the call raises AttributeError instead of substituting a
penalty and returning normally. -/
theorem score_missing_penalty_c2 :
    Parser.score ⟨[⟨noneRule, 1, "never"⟩], defaultWeights⟩ [WordMatch.noMatch] =
      Except.error PyErr.attributeError := by
  rfl

theorem parserOne_score (noms : List WordMatch) : parserOne.score noms = Except.ok 0 := by
  have h1 : parserOne.scoreTotals noms = Except.ok [(0 : ℚ)] := by
    simp [Parser.scoreTotals, scoreTotalsList, parserOne, zeroRule, Except.map]
  unfold Parser.score
  rw [h1]
  simp only [Except.map, List.map_cons, List.map_nil, List.sum_cons, List.sum_nil]
  norm_num [Real.sqrt_zero]

theorem objective_trunc_eval_c3 :
    optimizerObjective parserOne interpsEmptyNoms [-(1 / 20)] = Except.ok (1 / 20) := by
  unfold optimizerObjective
  have hsel : getSelection interpsEmptyNoms [-(1 / 20)] = [WordMatch.noMatch] := by
    norm_num [getSelection, interpsEmptyNoms, selectOne]
  rw [hsel, parserOne_score]
  simp only [Except.map]
  have hfrac : fracSqSum [-(1 / 20)] = 1 / 400 := by
    have ht : truncQ (-(1 / 20)) = 0 := by
      unfold truncQ
      rw [if_neg (by norm_num), Int.ceil_eq_zero_iff]
      constructor <;> norm_num
    simp only [fracSqSum, List.map_cons, List.map_nil, List.sum_cons, List.sum_nil, ht]
    norm_num
  rw [hfrac]
  rw [show ((1 / 400 : ℚ) : ℝ) = (1 / 20 : ℝ) ^ 2 by push_cast; norm_num]
  rw [Real.sqrt_sq (by norm_num : (0 : ℝ) ≤ 1 / 20)]
  norm_num

theorem objective_floor_eval_c3 :
    optimizerObjectiveFloor parserOne interpsEmptyNoms [-(1 / 20)] = Except.ok (19 / 20) := by
  unfold optimizerObjectiveFloor
  have hsel : getSelection interpsEmptyNoms [-(1 / 20)] = [WordMatch.noMatch] := by
    norm_num [getSelection, interpsEmptyNoms, selectOne]
  rw [hsel, parserOne_score]
  simp only [Except.map]
  have hfrac : ([-(1 / 20 : ℚ)].map (fun v => (v - (⌊v⌋ : ℚ)) ^ 2)).sum = 361 / 400 := by
    have hf : ⌊(-(1 / 20) : ℚ)⌋ = -1 := by
      rw [Int.floor_eq_iff]
      norm_num
    simp only [List.map_cons, List.map_nil, List.sum_cons, List.sum_nil, hf]
    norm_num
  rw [hfrac]
  rw [show ((361 / 400 : ℚ) : ℝ) = (19 / 20 : ℝ) ^ 2 by push_cast; norm_num]
  rw [Real.sqrt_sq (by norm_num : (0 : ℝ) ≤ 19 / 20)]
  norm_num

/-- Claim C3, counterexample to the claim as stated: at the in-bounds
coordinate vector with the single entry minus one twentieth, the objective the
optimizer evaluates (int() truncates toward zero, penalty one twentieth)
differs from the claimed floor-based objective (penalty nineteen
twentieths). -/
theorem objective_floor_counterexample_c3 :
    optimizerObjective parserOne interpsEmptyNoms [-(1 / 20)] ≠
      optimizerObjectiveFloor parserOne interpsEmptyNoms [-(1 / 20)] := by
  rw [objective_trunc_eval_c3, objective_floor_eval_c3]
  intro h
  have h' : (1 / 20 : ℝ) = 19 / 20 := by
    simpa using h
  norm_num at h'

/-- Claim C3 (corrected).  Within the optimizer bounds (each coordinate at
least minus one tenth) the objective equals the rule-ensemble score of the
snapped selection plus sqrt of the summed squared fractional parts, where the
fractional part of a nonnegative coordinate subtracts the floor and the
fractional part of a negative in-bounds coordinate is the coordinate itself
(Python int() truncates toward zero, so on [-0.1, 0) the subtracted integer is
0, not -1). -/
theorem objective_trunc_c3 (p : Parser) (interps : List Interpretation) (x : List ℚ)
    (hb : ∀ v ∈ x, -(1 / 10) ≤ v) :
    optimizerObjective p interps x =
      (p.score (getSelection interps x)).map (fun s =>
        s + Real.sqrt
          (((x.map (fun v => if v < 0 then v ^ 2 else (v - (⌊v⌋ : ℚ)) ^ 2)).sum : ℚ) : ℝ)) := by
  unfold optimizerObjective
  have hsum : fracSqSum x =
      (x.map (fun v => if v < 0 then v ^ 2 else (v - (⌊v⌋ : ℚ)) ^ 2)).sum := by
    unfold fracSqSum
    congr 1
    apply List.map_congr_left
    intro v hv
    by_cases hneg : v < 0
    · have h1 : ¬ 0 ≤ v := not_le.mpr hneg
      have hceil : ⌈v⌉ = 0 := by
        rw [Int.ceil_eq_zero_iff]
        exact ⟨by linarith [hb v hv], le_of_lt hneg⟩
      simp [truncQ, h1, hceil, hneg]
    · have h0 : 0 ≤ v := not_lt.mp hneg
      simp [truncQ, h0, hneg]
  rw [hsum]

/-- Witness for claim C3 at the concrete in-bounds input minus one
twentieth. -/
theorem objective_trunc_c3_witness :
    optimizerObjective parserOne interpsEmptyNoms [-(1 / 20)] =
      (parserOne.score (getSelection interpsEmptyNoms [-(1 / 20)])).map (fun s =>
        s + Real.sqrt
          ((([-(1 / 20 : ℚ)].map
              (fun v => if v < 0 then v ^ 2 else (v - (⌊v⌋ : ℚ)) ^ 2)).sum : ℚ) : ℝ)) :=
  objective_trunc_c3 parserOne interpsEmptyNoms [-(1 / 20)]
    (by intro v hv; rw [List.mem_singleton] at hv; subst hv; norm_num)

theorem length_le_flatMap {α β : Type} (l : List α) (f : α → List β)
    (h : ∀ a ∈ l, f a ≠ []) : l.length ≤ (l.flatMap f).length := by
  induction l with
  | nil => simp
  | cons a l ih =>
    simp only [List.flatMap_cons, List.length_append, List.length_cons]
    have h1 : 0 < (f a).length := List.length_pos.mpr (h a (by simp))
    have h2 := ih (fun b hb => h b (by simp [hb]))
    omega

theorem selectOne_ne_nil (noms : List (List WordMatch)) (pos : ℚ)
    (h : ∀ t ∈ noms, t ≠ []) : selectOne noms pos ≠ [] := by
  unfold selectOne
  by_cases hge : (noms.length : ℚ) ≤ (if pos < 0 then 0 else pos)
  · simp [hge]
  · simp only [if_neg hge]
    have hp0 : 0 ≤ (if pos < 0 then 0 else pos : ℚ) := by
      split
      · exact le_refl 0
      · next h' => exact not_lt.mp h'
    have hlt : Int.toNat ⌊(if pos < 0 then 0 else pos : ℚ)⌋ < noms.length := by
      have h1 : (⌊(if pos < 0 then 0 else pos : ℚ)⌋ : ℚ) ≤ _ :=
        Int.floor_le (if pos < 0 then 0 else pos : ℚ)
      have h2 : (if pos < 0 then 0 else pos : ℚ) < (noms.length : ℚ) := not_le.mp hge
      have h3 : (⌊(if pos < 0 then 0 else pos : ℚ)⌋ : ℚ) < (noms.length : ℚ) :=
        lt_of_le_of_lt h1 h2
      have h4 : ⌊(if pos < 0 then 0 else pos : ℚ)⌋ < (noms.length : ℤ) := by
        exact_mod_cast h3
      have h5 : 0 ≤ ⌊(if pos < 0 then 0 else pos : ℚ)⌋ := Int.floor_nonneg.mpr hp0
      omega
    rw [List.getD_eq_getElem _ _ hlt]
    exact h _ (List.getElem_mem hlt)

theorem getSelection_length (interps : List Interpretation) (x : List ℚ)
    (hlen : x.length = interps.length)
    (hne : ∀ it ∈ interps, ∀ t ∈ it.nominations, t ≠ []) :
    interps.length ≤ (getSelection interps x).length := by
  unfold getSelection
  have hz : (x.zip interps).length = interps.length := by
    rw [List.length_zip, hlen, min_self]
  rw [← hz]
  apply length_le_flatMap
  intro q hq
  exact selectOne_ne_nil _ _ (hne q.2 (List.of_mem_zip hq).2)

theorem parserOne_objective_zero :
    optimizerObjective parserOne interpsTwoWord [0] = Except.ok 0 := by
  unfold optimizerObjective
  rw [parserOne_score]
  simp only [Except.map]
  have hfrac : fracSqSum [0] = 0 := by
    have ht : truncQ 0 = 0 := by
      unfold truncQ
      rw [if_pos (le_refl 0)]
      exact Int.floor_zero
    simp only [fracSqSum, List.map_cons, List.map_nil, List.sum_cons, List.sum_nil, ht]
    norm_num
  rw [hfrac]
  norm_num [Real.sqrt_zero]

theorem optimize_twoWord_eval :
    optimize parserOne interpsTwoWord true [0] =
      Except.ok ⟨1, [WordMatch.nom nominationA, WordMatch.nom nominationB]⟩ := by
  unfold optimize
  rw [if_neg (by simp)]
  rw [parserOne_objective_zero]
  have hms : maxScoreSq parserOne = 1 := by
    simp [maxScoreSq, parserOne]
  simp only [Except.bind, hms]
  rw [if_neg (by norm_num)]
  have hsel : getSelection interpsTwoWord [0] =
      [WordMatch.nom nominationA, WordMatch.nom nominationB] := by
    norm_num [getSelection, interpsTwoWord, selectOne]
  rw [hsel]
  have hsc : max 0 ((Real.sqrt ((1 : ℚ) : ℝ) - 0) / Real.sqrt ((1 : ℚ) : ℝ)) = 1 := by
    rw [show ((1 : ℚ) : ℝ) = 1 by norm_num, Real.sqrt_one]
    norm_num
  rw [hsc]

/-- Claim C4, counterexample to the claim as stated: with one input token
whose selected interpretation is a two-word nomination sequence, the returned
Match holds two WordMatch entries, not one entry per token. -/
theorem optimize_one_per_token_counterexample_c4 :
    optimize parserOne interpsTwoWord true [0] =
      Except.ok ⟨1, [WordMatch.nom nominationA, WordMatch.nom nominationB]⟩ ∧
    ([WordMatch.nom nominationA, WordMatch.nom nominationB] : List WordMatch).length ≠
      interpsTwoWord.length :=
  ⟨optimize_twoWord_eval, by decide⟩

/-- Claim C4 (corrected).  The matched sequence of a returned Match is the
concatenation, in token order, of one nonempty block per input token (the
selected nomination sequence, or the single NoMatch fallback), so it has at
least one entry per input token rather than exactly one; on optimizer failure
it is exactly one NoMatch per token. -/
theorem optimize_matched_length_c4 (p : Parser) (interps : List Interpretation)
    (success : Bool) (x : List ℚ) (m : Match)
    (hlen : x.length = interps.length)
    (hne : ∀ it ∈ interps, ∀ t ∈ it.nominations, t ≠ [])
    (hm : optimize p interps success x = Except.ok m) :
    interps.length ≤ m.matched.length := by
  by_cases hs : success = false
  · rw [hs] at hm
    unfold optimize at hm
    rw [if_pos rfl] at hm
    have hmm : m.matched = List.replicate interps.length WordMatch.noMatch := by
      cases hm; rfl
    rw [hmm, List.length_replicate]
  · have hs' : success = true := by
      revert hs; cases success <;> simp
    rw [hs'] at hm
    unfold optimize at hm
    rw [if_neg (by simp)] at hm
    cases hobj : optimizerObjective p interps x with
    | error e =>
      rw [hobj] at hm
      simp only [Except.bind] at hm
      cases hm
    | ok f =>
      rw [hobj] at hm
      simp only [Except.bind] at hm
      by_cases hz : maxScoreSq p = 0
      · rw [if_pos hz] at hm
        cases hm
      · rw [if_neg hz] at hm
        have hmm : m.matched = getSelection interps x := by
          cases hm; rfl
        rw [hmm]
        exact getSelection_length interps x hlen hne

/-- Witness for claim C4 at the concrete two-word interpretation. -/
theorem optimize_matched_length_c4_witness :
    interpsTwoWord.length ≤
      (Match.mk 1 [WordMatch.nom nominationA, WordMatch.nom nominationB]).matched.length :=
  optimize_matched_length_c4 parserOne interpsTwoWord true [0]
    ⟨1, [WordMatch.nom nominationA, WordMatch.nom nominationB]⟩ (by decide) (by decide)
    optimize_twoWord_eval

/-- Claim C8 (confirmed).  Whenever optimize returns a Match, its score lies
in the unit interval: the failure branch reports zero, and on the success
branch the minimized objective is a sum of two square roots, hence
nonnegative, while max_score is positive whenever the division is reached, so
the clamped normalized score is between 0 and 1. -/
theorem optimize_score_range_c8 (p : Parser) (interps : List Interpretation)
    (success : Bool) (x : List ℚ) (m : Match)
    (hm : optimize p interps success x = Except.ok m) :
    0 ≤ m.score ∧ m.score ≤ 1 := by
  by_cases hs : success = false
  · rw [hs] at hm
    unfold optimize at hm
    rw [if_pos rfl] at hm
    have hsc : m.score = 0 := by cases hm; rfl
    rw [hsc]
    norm_num
  · have hs' : success = true := by
      revert hs; cases success <;> simp
    rw [hs'] at hm
    unfold optimize at hm
    rw [if_neg (by simp)] at hm
    cases hobj : optimizerObjective p interps x with
    | error e =>
      rw [hobj] at hm
      simp only [Except.bind] at hm
      cases hm
    | ok f =>
      rw [hobj] at hm
      simp only [Except.bind] at hm
      by_cases hz : maxScoreSq p = 0
      · rw [if_pos hz] at hm
        cases hm
      · rw [if_neg hz] at hm
        obtain ⟨s, hsok, hf⟩ :
            ∃ s, p.score (getSelection interps x) = Except.ok s ∧
              f = s + Real.sqrt ((fracSqSum x : ℚ) : ℝ) := by
          unfold optimizerObjective at hobj
          cases hsc : p.score (getSelection interps x) with
          | error e => rw [hsc] at hobj; simp [Except.map] at hobj
          | ok s =>
            rw [hsc] at hobj
            simp only [Except.map, Except.ok.injEq] at hobj
            exact ⟨s, rfl, hobj.symm⟩
        have hs_nonneg : 0 ≤ s := by
          unfold Parser.score at hsok
          cases hst : p.scoreTotals (getSelection interps x) with
          | error e => rw [hst] at hsok; simp [Except.map] at hsok
          | ok total =>
            rw [hst] at hsok
            simp only [Except.map, Except.ok.injEq] at hsok
            rw [← hsok]
            exact Real.sqrt_nonneg _
        have hf_nonneg : 0 ≤ f := by
          rw [hf]
          exact add_nonneg hs_nonneg (Real.sqrt_nonneg _)
        have hq_nonneg : (0 : ℚ) ≤ maxScoreSq p := by
          unfold maxScoreSq
          apply List.sum_nonneg
          intro q hq
          obtain ⟨r, _, rfl⟩ := List.mem_map.mp hq
          positivity
        have hms_pos : 0 < Real.sqrt ((maxScoreSq p : ℚ) : ℝ) := by
          apply Real.sqrt_pos.mpr
          have : (0 : ℚ) < maxScoreSq p := lt_of_le_of_ne hq_nonneg (Ne.symm hz)
          exact_mod_cast this
        have hsc : m.score = max 0 ((Real.sqrt ((maxScoreSq p : ℚ) : ℝ) - f) /
            Real.sqrt ((maxScoreSq p : ℚ) : ℝ)) := by
          cases hm; rfl
        rw [hsc]
        constructor
        · exact le_max_left 0 _
        · apply max_le (by norm_num)
          rw [div_le_one hms_pos]
          linarith

/-- Witness for claim C8 on the failure branch. -/
theorem optimize_score_range_c8_witness :
    0 ≤ (Match.mk 0 ([] : List WordMatch)).score ∧
      (Match.mk 0 ([] : List WordMatch)).score ≤ 1 :=
  optimize_score_range_c8 parserOne [] false [] ⟨0, []⟩ rfl

theorem parserOne_objective_nil : optimizerObjective parserOne [] [] = Except.ok 0 := by
  unfold optimizerObjective
  rw [show getSelection [] [] = [] from rfl, parserOne_score]
  simp only [Except.map]
  have hfrac : fracSqSum [] = 0 := rfl
  rw [hfrac]
  norm_num [Real.sqrt_zero]

/-- Claim C10 (confirmed).  The normalization divides by max_score with no
zero guard: with no rules, or only zero-weight rules, a successful
optimization run cannot return a Match (the division raises); when at least
one rule has nonzero weight, the success path always returns a Match once the
objective evaluation came back (as it must have for shgo to succeed). -/
theorem optimize_zero_weight_c10 (p : Parser) (interps : List Interpretation) (x : List ℚ) :
    ((∀ r ∈ p.rules, r.weight = 0) → ∀ m, optimize p interps true x ≠ Except.ok m) ∧
    ((∃ r ∈ p.rules, r.weight ≠ 0) →
      ∀ f, optimizerObjective p interps x = Except.ok f →
        ∃ m, optimize p interps true x = Except.ok m) := by
  constructor
  · intro hall m hm
    unfold optimize at hm
    rw [if_neg (by simp)] at hm
    have hz : maxScoreSq p = 0 := by
      unfold maxScoreSq
      apply List.sum_eq_zero
      intro q hq
      obtain ⟨r, hr, rfl⟩ := List.mem_map.mp hq
      rw [hall r hr]
      ring
    cases hobj : optimizerObjective p interps x with
    | error e =>
      rw [hobj] at hm
      simp only [Except.bind] at hm
      cases hm
    | ok f =>
      rw [hobj] at hm
      simp only [Except.bind] at hm
      rw [if_pos hz] at hm
      cases hm
  · rintro ⟨r, hr, hw⟩ f hobj
    have hz : maxScoreSq p ≠ 0 := by
      have hpos : 0 < maxScoreSq p := by
        unfold maxScoreSq
        have hmem : r.weight ^ 2 ∈ p.rules.map (fun q => q.weight ^ 2) :=
          List.mem_map_of_mem _ hr
        have hle : r.weight ^ 2 ≤ (p.rules.map (fun q => q.weight ^ 2)).sum := by
          apply List.single_le_sum _ _ hmem
          intro q hq
          obtain ⟨q', _, rfl⟩ := List.mem_map.mp hq
          positivity
        have hpos2 : 0 < r.weight ^ 2 := by positivity
        linarith
      exact ne_of_gt hpos
    refine ⟨⟨max 0 ((Real.sqrt ((maxScoreSq p : ℚ) : ℝ) - f) /
        Real.sqrt ((maxScoreSq p : ℚ) : ℝ)), getSelection interps x⟩, ?_⟩
    unfold optimize
    rw [if_neg (by simp)]
    rw [hobj]
    simp only [Except.bind]
    rw [if_neg hz]

/-- Witness for claim C10: with no rules a successful run cannot return the
all-NoMatch zero Match, while with the single weight-one rule the success path
returns a Match. -/
theorem optimize_zero_weight_c10_witness :
    optimize parserEmpty [] true [] ≠ Except.ok (Match.mk 0 []) ∧
      (optimize parserOne [] true []).isOk = true := by
  constructor
  · exact (optimize_zero_weight_c10 parserEmpty [] []).1 (by intro r hr; simp [parserEmpty] at hr)
      ⟨0, []⟩
  · obtain ⟨m, hm⟩ := (optimize_zero_weight_c10 parserOne [] []).2
      ⟨⟨zeroRule, 1, "zero"⟩, List.mem_singleton.mpr rfl, by norm_num⟩ 0 parserOne_objective_nil
    rw [hm]
    rfl

set_option maxRecDepth 16000 in
set_option maxHeartbeats 2000000 in
theorem normalize_matches_initials_vector :
    Lexer.normalize "Cdt, M.L. Blidon".toList = "Cdt , M. L. Blidon".toList := by
  decide

set_option maxRecDepth 16000 in
set_option maxHeartbeats 2000000 in
theorem normalize_matches_percent_vector :
    Lexer.normalize "vetements 100 % basques.".toList = "vetements 100% basques .".toList := by
  decide

set_option maxRecDepth 16000 in
/-- Claim C9 (code bug).  The French-profile normalization is not idempotent:
on the input a, apostrophe, b, apostrophe, c, the apostrophe rewrite consumes
its trailing word character, so the first pass only converts the first
apostrophe and a second pass converts the second, giving a different string.
The two rewrites above check the embedding of the cascade against literal test
vectors of the repository's own test suite. -/
theorem normalize_not_idempotent_c9 :
    Lexer.normalize (Lexer.normalize strApos) ≠ Lexer.normalize strApos ∧
    Lexer.normalize strApos = ['a', rapos, 'b', apos, 'c'] ∧
    Lexer.normalize (Lexer.normalize strApos) = ['a', rapos, 'b', rapos, 'c'] := by
  decide

end Aramis
